import Mathlib

/-!
Shallow embedding of the collaborative-canvas server core:
the per-room operation log and state-reconstruction engine
(src/server/drawing-state.js, class DrawingState), the room registry
(rooms.js, class RoomManager) and the operation-construction part of the
socket handlers (server.js).  JavaScript numbers are modelled as real
numbers, JS strings as String, absent fields as Option, and JS Map and
Set as association lists and duplicate-free lists preserving insertion
order.  Operation ids, produced in the source as strings
op_(time)_(counter) with a strictly increasing counter, are modelled by
the counter value alone, which preserves their uniqueness.
-/

namespace CollabCanvas

/-- A 2-D coordinate, field point of draw and erase operations. -/
structure Point where
  x : ℝ
  y : ℝ

/-- A logged operation, as built by DrawingState.addOperation: the inbound
payload plus id and timestamp, with the three undo-bookkeeping fields
(undone, undoneBy, undoneAt) absent, i.e. false resp. none, on creation.
String fields that a given operation type leaves undefined are modelled
as the empty string resp. none; the numeric field radius is modelled with
absent as 0, which the JS truthiness test operation.radius conflates with
an explicit 0. -/
structure Operation where
  id : Nat
  type : String
  userId : Option String
  strokeId : Option String
  tool : String
  color : String
  lineWidth : ℝ
  point : Option Point
  radius : ℝ
  timestamp : Nat
  undone : Bool
  undoneBy : Option String
  undoneAt : Option Nat

/-- An inbound operation payload, as the socket handlers of server.js pass
it to addOperation: no id, no timestamp, no undo bookkeeping. -/
structure OperationInput where
  type : String
  userId : Option String
  strokeId : Option String
  tool : String
  color : String
  lineWidth : ℝ
  point : Option Point
  radius : ℝ

/-- A derived stroke: the accumulation of the draw operations sharing one
strokeId, as created in the draw branch of applyOperation. -/
structure Stroke where
  id : Option String
  userId : Option String
  tool : String
  color : String
  lineWidth : ℝ
  points : List Point

/-- The state of class DrawingState (drawing-state.js). -/
structure DrawingState where
  operationHistory : List Operation
  currentHistoryIndex : Int
  strokes : List Stroke
  userOperations : List (String × List Nat)
  operationIdCounter : Nat

/-- The state built by the DrawingState constructor. -/
def freshDrawingState : DrawingState :=
  { operationHistory := []
    currentHistoryIndex := -1
    strokes := []
    userOperations := []
    operationIdCounter := 0 }

/-! JS Map and Set, on insertion-ordered lists with unique keys. -/

/-- JS Map.get: value of the first entry with the given key. -/
def mapGet (m : List (String × α)) (k : String) : Option α :=
  (m.find? (fun p => p.1 == k)).map (·.2)

/-- JS Map.has. -/
def mapHas (m : List (String × α)) (k : String) : Bool :=
  m.any (fun p => p.1 == k)

/-- JS Map.set: replace the value in place if the key is present,
otherwise append a new entry. -/
def mapSet (m : List (String × α)) (k : String) (v : α) : List (String × α) :=
  if m.any (fun p => p.1 == k) then
    m.map (fun p => if p.1 == k then (k, v) else p)
  else
    m ++ [(k, v)]

/-- JS Map.delete. -/
def mapDelete (m : List (String × α)) (k : String) : List (String × α) :=
  m.filter (fun p => !(p.1 == k))

/-- JS Set.add on a duplicate-free list. -/
def setAdd (s : List String) (x : String) : List String :=
  if s.contains x then s else s ++ [x]

/-- JS Set.delete. -/
def setDelete (s : List String) (x : String) : List String :=
  s.filter (fun y => !(y == x))

/-- The user-operation tracking step of addOperation: create the entry for
the user if missing, then push the new operation id. -/
def pushUserOp (m : List (String × List Nat)) (u : String) (opId : Nat) :
    List (String × List Nat) :=
  match mapGet m u with
  | some ids => mapSet m u (ids ++ [opId])
  | none => mapSet m u [opId]

/-- The effective erase radius, operation.radius with 20 substituted for a
falsy (absent or zero) value. -/
noncomputable def eraseEffRadius (op : Operation) : ℝ :=
  if op.radius = 0 then 20 else op.radius

open Classical in
/-- Whether a point survives an erase centred at c: it is kept exactly when
its Euclidean distance from c is strictly greater than the radius
(drawing-state.js line 102, distance greater than eraseRadius).  An absent
erase centre makes the JS distance NaN and every comparison false, so no
point survives. -/
noncomputable def pointSurvives (c : Option Point) (r : ℝ) (p : Point) : Bool :=
  match c with
  | some c => decide (Real.sqrt ((p.x - c.x) ^ 2 + (p.y - c.y) ^ 2) > r)
  | none => false

/-- Update the first element satisfying p, as JS find-then-mutate does. -/
def updateFirst (l : List Stroke) (p : Stroke → Bool) (f : Stroke → Stroke) :
    List Stroke :=
  match l with
  | [] => []
  | x :: xs => if p x then f x :: xs else x :: updateFirst xs p f

/-- DrawingState.applyOperation, acting on the strokes field (the only
state it touches).  The draw branch locates the stroke by strokeId,
creating and appending it if absent, and appends the point when present;
the erase branch keeps eraser-tool strokes, filters the points of every
other stroke by distance, and drops strokes left with no points; the clear
branch empties the derived set; any other type is a no-op. -/
noncomputable def applyOp (strokes : List Stroke) (op : Operation) : List Stroke :=
  if op.type = "draw" then
    if strokes.any (fun st => st.id == op.strokeId) then
      updateFirst strokes (fun st => st.id == op.strokeId)
        (fun st => { st with points := st.points ++ op.point.toList })
    else
      strokes ++ [{ id := op.strokeId, userId := op.userId, tool := op.tool,
                    color := op.color, lineWidth := op.lineWidth,
                    points := op.point.toList }]
  else if op.type = "erase" then
    let erasePoint := op.point
    let eraseRadius := eraseEffRadius op
    strokes.filterMap (fun st =>
      if st.tool = "eraser" then some st
      else
        let filteredPoints := st.points.filter (pointSurvives erasePoint eraseRadius)
        if filteredPoints.isEmpty then none
        else some { st with points := filteredPoints })
  else if op.type = "clear" then
    []
  else
    strokes

/-- The operation record addOperation builds from a payload: fresh id from
the incremented counter, server timestamp, undo markers absent. -/
def mkOp (s : DrawingState) (inp : OperationInput) (now : Nat) : Operation :=
  { id := s.operationIdCounter + 1
    type := inp.type
    userId := inp.userId
    strokeId := inp.strokeId
    tool := inp.tool
    color := inp.color
    lineWidth := inp.lineWidth
    point := inp.point
    radius := inp.radius
    timestamp := now
    undone := false
    undoneBy := none
    undoneAt := none }

/-- DrawingState.addOperation: truncate the history past the current index
when behind (never in live operation), assign a fresh id and timestamp,
append, fold into the derived strokes, and index the operation under its
user when the userId is truthy.  Returns the new state and the id. -/
noncomputable def DrawingState.addOperation (s : DrawingState)
    (inp : OperationInput) (now : Nat) : DrawingState × Nat :=
  let base :=
    if s.currentHistoryIndex < (s.operationHistory.length : Int) - 1 then
      s.operationHistory.take (s.currentHistoryIndex + 1).toNat
    else
      s.operationHistory
  let op := mkOp s inp now
  let userOps :=
    match inp.userId with
    | some u => if u = "" then s.userOperations else pushUserOp s.userOperations u op.id
    | none => s.userOperations
  ({ operationHistory := base ++ [op]
     currentHistoryIndex := s.currentHistoryIndex + 1
     strokes := applyOp s.strokes op
     userOperations := userOps
     operationIdCounter := op.id }, op.id)

/-- DrawingState.rebuildState: reset the derived strokes, clear the
per-user operation index, and replay every non-undone operation in log
order.  The replay calls applyOperation only, so the cleared index is
never repopulated. -/
noncomputable def DrawingState.rebuildState (s : DrawingState) : DrawingState :=
  { s with
    strokes := (s.operationHistory.filter (fun op => !op.undone)).foldl applyOp []
    userOperations := [] }

/-- Backward scan of the operation history for the most recent operation
satisfying p; flags it with f and returns the flagged operation together
with the updated history. -/
def flagLast (l : List Operation) (p : Operation → Bool) (f : Operation → Operation) :
    Option (Operation × List Operation) :=
  match l with
  | [] => none
  | x :: xs =>
    match flagLast xs p f with
    | some (op, xs') => some (op, x :: xs')
    | none => if p x then some (f x, f x :: xs) else none

/-- DrawingState.undo: bail out when the per-user index has no entry, else
scan backward for the most recent non-undone operation whose id is in the
user's index, set the three undo markers, rebuild, and return the flagged
operation. -/
noncomputable def DrawingState.undo (s : DrawingState) (userId : String) (now : Nat) :
    DrawingState × Option Operation :=
  let userOps := (mapGet s.userOperations userId).getD []
  if userOps.isEmpty then (s, none)
  else
    match flagLast s.operationHistory
        (fun op => userOps.contains op.id && !op.undone)
        (fun op => { op with undone := true, undoneBy := some userId,
                             undoneAt := some now }) with
    | none => (s, none)
    | some (op, history) =>
      (DrawingState.rebuildState { s with operationHistory := history }, some op)

/-- DrawingState.redo: scan backward for the most recent operation with
undone set whose userId and undoneBy both equal the requesting user, clear
the three undo markers, rebuild, and return the operation. -/
noncomputable def DrawingState.redo (s : DrawingState) (userId : String) :
    DrawingState × Option Operation :=
  match flagLast s.operationHistory
      (fun op => op.undone && op.userId == some userId && op.undoneBy == some userId)
      (fun op => { op with undone := false, undoneBy := none, undoneAt := none }) with
  | none => (s, none)
  | some (op, history) =>
    (DrawingState.rebuildState { s with operationHistory := history }, some op)

/-- DrawingState.clear: reset strokes, the whole operation history, the
history index and the per-user index; the id counter is kept. -/
def DrawingState.clear (s : DrawingState) : DrawingState :=
  { s with
    strokes := []
    operationHistory := []
    currentHistoryIndex := -1
    userOperations := [] }

/-- DrawingState.getState: the derived stroke set. -/
def DrawingState.getState (s : DrawingState) : List Stroke :=
  s.strokes

/-! The room registry, class RoomManager of rooms.js. -/

/-- The state of class RoomManager: the room-to-log map, the socket-to-room
map and the room-to-membership map. -/
structure RoomManager where
  rooms : List (String × DrawingState)
  socketToRoom : List (String × String)
  roomUsers : List (String × List String)
  defaultRoomId : String

/-- RoomManager.createRoom: refuse when the room already exists, otherwise
give it a fresh DrawingState and an empty membership set. -/
def RoomManager.createRoom (rm : RoomManager) (roomId : String) :
    RoomManager × Bool :=
  if mapHas rm.rooms roomId then (rm, false)
  else
    ({ rm with
       rooms := mapSet rm.rooms roomId freshDrawingState
       roomUsers := mapSet rm.roomUsers roomId [] }, true)

/-- RoomManager.leaveRoom: remove the socket from its current room's
membership set, if any, and drop its socket-to-room binding. -/
def RoomManager.leaveRoom (rm : RoomManager) (socketId : String) : RoomManager :=
  match mapGet rm.socketToRoom socketId with
  | none => rm
  | some roomId =>
    { rm with
      roomUsers :=
        match mapGet rm.roomUsers roomId with
        | some users => mapSet rm.roomUsers roomId (setDelete users socketId)
        | none => rm.roomUsers
      socketToRoom := mapDelete rm.socketToRoom socketId }

/-- RoomManager.joinRoom: leave the current room, lazily create the target
room, bind the socket to it and add the socket to its membership set. -/
def RoomManager.joinRoom (rm : RoomManager) (socketId roomId : String) :
    RoomManager :=
  let rm1 := rm.leaveRoom socketId
  let rm2 := if mapHas rm1.rooms roomId then rm1 else (rm1.createRoom roomId).1
  { rm2 with
    socketToRoom := mapSet rm2.socketToRoom socketId roomId
    roomUsers :=
      match mapGet rm2.roomUsers roomId with
      | some users => mapSet rm2.roomUsers roomId (setAdd users socketId)
      | none => rm2.roomUsers }

/-- RoomManager.deleteRoom: refuse for the default room; otherwise delete
the room and its log exactly when its membership set exists and is empty. -/
def RoomManager.deleteRoom (rm : RoomManager) (roomId : String) :
    RoomManager × Bool :=
  if roomId = rm.defaultRoomId then (rm, false)
  else
    match mapGet rm.roomUsers roomId with
    | some users =>
      if users.length = 0 then
        ({ rm with
           rooms := mapDelete rm.rooms roomId
           roomUsers := mapDelete rm.roomUsers roomId }, true)
      else (rm, false)
    | none => (rm, false)

/-- RoomManager.getRoomState: the room's DrawingState, if the room exists. -/
def RoomManager.getRoomState (rm : RoomManager) (roomId : String) :
    Option DrawingState :=
  mapGet rm.rooms roomId

/-- The registry built by the RoomManager constructor: empty maps, then the
default room is created. -/
def freshRoomManager : RoomManager :=
  (RoomManager.createRoom
    { rooms := [], socketToRoom := [], roomUsers := [], defaultRoomId := "default" }
    "default").1

/-- The four registry operations of the claim on the default room. -/
inductive RegistryOp where
  | create (roomId : String)
  | join (socketId roomId : String)
  | leave (socketId : String)
  | delete (roomId : String)

/-- One registry step. -/
def RoomManager.step (rm : RoomManager) (op : RegistryOp) : RoomManager :=
  match op with
  | .create roomId => (rm.createRoom roomId).1
  | .join socketId roomId => rm.joinRoom socketId roomId
  | .leave socketId => rm.leaveRoom socketId
  | .delete roomId => (rm.deleteRoom roomId).1

/-! The operation-construction and routing part of the socket handlers in
server.js. -/

/-- The identity the server assigns a connection. -/
structure UserInfo where
  id : String
  username : String
  color : String

/-- Inbound payload of draw-start and draw-move client messages. -/
structure DrawData where
  strokeId : Option String
  tool : Option String
  color : Option String
  lineWidth : Option ℝ
  point : Option Point

/-- Inbound payload of an erase client message. -/
structure EraseData where
  point : Option Point
  radius : Option ℝ

/-- JS short-circuit default for a string field: absent or empty is falsy. -/
def jsOrStr (v : Option String) (d : String) : String :=
  match v with
  | none => d
  | some s => if s = "" then d else s

open Classical in
/-- JS short-circuit default for a numeric field: absent or zero is falsy. -/
noncomputable def jsOrNum (v : Option ℝ) (d : ℝ) : ℝ :=
  match v with
  | none => d
  | some x => if x = 0 then d else x

/-- The operation the draw-start handler builds: a fresh server-generated
strokeId (the inbound strokeId field is ignored), tool defaulting to
brush, color to the user's color, lineWidth to 5. -/
noncomputable def serverDrawStartInput (user : UserInfo) (strokeId : String)
    (d : DrawData) : OperationInput :=
  { type := "draw"
    userId := some user.id
    strokeId := some strokeId
    tool := jsOrStr d.tool "brush"
    color := jsOrStr d.color user.color
    lineWidth := jsOrNum d.lineWidth 5
    point := d.point
    radius := 0 }

/-- The operation the draw-move handler builds: same defaults, but the
inbound strokeId is used as is. -/
noncomputable def serverDrawMoveInput (user : UserInfo) (d : DrawData) :
    OperationInput :=
  { type := "draw"
    userId := some user.id
    strokeId := d.strokeId
    tool := jsOrStr d.tool "brush"
    color := jsOrStr d.color user.color
    lineWidth := jsOrNum d.lineWidth 5
    point := d.point
    radius := 0 }

/-- The operation the erase handler builds: radius defaulting to 20. -/
noncomputable def serverEraseInput (user : UserInfo) (d : EraseData) :
    OperationInput :=
  { type := "erase"
    userId := some user.id
    strokeId := none
    tool := ""
    color := ""
    lineWidth := 0
    point := d.point
    radius := jsOrNum d.radius 20 }

/-- The operation the clear handler builds. -/
def clearInput (u : String) : OperationInput :=
  { type := "clear"
    userId := some u
    strokeId := none
    tool := ""
    color := ""
    lineWidth := 0
    point := none
    radius := 0 }

/-- The clear handler of server.js: log a clear operation, then call
DrawingState.clear on the room state. -/
noncomputable def serverClear (s : DrawingState) (u : String) (now : Nat) :
    DrawingState :=
  DrawingState.clear (s.addOperation (clearInput u) now).1

/-- Routing of an inbound drawing operation to one room's log: resolve the
room's DrawingState and, when it exists, add the operation to it. -/
noncomputable def logOperation (rm : RoomManager) (roomId : String)
    (inp : OperationInput) (now : Nat) : RoomManager :=
  match mapGet rm.rooms roomId with
  | none => rm
  | some ds => { rm with rooms := mapSet rm.rooms roomId (ds.addOperation inp now).1 }

/-! Derived notions used by the statements and proofs below. -/

/-- A sequence of addOperation calls, each with its server receipt time. -/
noncomputable def addOps (s : DrawingState) (ps : List (OperationInput × Nat)) :
    DrawingState :=
  ps.foldl (fun s p => (s.addOperation p.1 p.2).1) s

/-- A concrete draw payload, used as test input. -/
def drawInput (u sid : String) (p : Point) : OperationInput :=
  { type := "draw", userId := some u, strokeId := some sid, tool := "brush",
    color := "#000000", lineWidth := 5, point := some p, radius := 0 }

/-- A draw payload with every rendering attribute a parameter. -/
def drawInputFull (u sid tool color : String) (lw : ℝ) (p : Point) :
    OperationInput :=
  { type := "draw", userId := some u, strokeId := some sid, tool := tool,
    color := color, lineWidth := lw, point := some p, radius := 0 }

/-- An erase payload with the given centre and radius, shaped as the erase
handler of server.js builds it after applying its defaults. -/
def eraseInput (u : Option String) (c : Point) (r : ℝ) : OperationInput :=
  { type := "erase", userId := u, strokeId := none, tool := "", color := "",
    lineWidth := 0, point := some c, radius := r }

/-- The live-operation invariant on the history index: it always points at
the last history entry, so the truncation branch of addOperation is dead. -/
def DrawingState.wfIdx (s : DrawingState) : Prop :=
  s.currentHistoryIndex = (s.operationHistory.length : Int) - 1

open Classical in
/-- Spec-side description of the erase fold, following the claim wording:
strokes whose tool is eraser are untouched; any other stroke loses exactly
the points whose Euclidean distance from the erase point is at most the
radius, and disappears entirely when all its points fall within the
radius. -/
noncomputable def eraseSpecStroke (c : Point) (r : ℝ) (st : Stroke) :
    Option Stroke :=
  if st.tool = "eraser" then some st
  else if ∀ p ∈ st.points, Real.sqrt ((p.x - c.x) ^ 2 + (p.y - c.y) ^ 2) ≤ r then
    none
  else
    let kept := st.points.filter
      (fun p => !decide (Real.sqrt ((p.x - c.x) ^ 2 + (p.y - c.y) ^ 2) ≤ r))
    some { st with points := kept }

/-- Invariant of a DrawingState built from scratch by addOperation calls
all carrying the same nonempty userId: the index is live, every history
entry belongs to that user with no undo markers, every history entry is
tracked in the per-user index, and the derived strokes equal the replay of
the non-undone history. -/
def InvU (u : String) (s : DrawingState) : Prop :=
  s.wfIdx
  ∧ (∀ op ∈ s.operationHistory,
      op.userId = some u ∧ op.undone = false ∧ op.undoneBy = none
        ∧ op.undoneAt = none)
  ∧ (∀ op ∈ s.operationHistory, op.id ∈ (mapGet s.userOperations u).getD [])
  ∧ s.strokes = (s.operationHistory.filter (fun op => !op.undone)).foldl applyOp []

/-! Lemmas about the JS Map model. -/

theorem mapSet_cons_ne {a : String × α} {k : String} (h : a.1 ≠ k)
    (m : List (String × α)) (v : α) :
    mapSet (a :: m) k v = a :: mapSet m k v := by
  by_cases hm : m.any (fun p => p.1 == k) <;>
    simp [mapSet, h, hm]

theorem mapSet_cons_eq {a : String × α} {k : String} (h : a.1 = k)
    (m : List (String × α)) (v : α) :
    mapSet (a :: m) k v
      = (k, v) :: m.map (fun p => if p.1 == k then (k, v) else p) := by
  simp [mapSet, h]

theorem mapGet_mapSet_self (m : List (String × α)) (k : String) (v : α) :
    mapGet (mapSet m k v) k = some v := by
  induction m with
  | nil => simp [mapGet, mapSet]
  | cons a m ih =>
    by_cases h : a.1 = k
    · rw [mapSet_cons_eq h]
      simp [mapGet]
    · rw [mapSet_cons_ne h]
      simpa [mapGet, List.find?_cons, h] using ih

theorem mapGet_cons_ne {a : String × α} {k : String} (h : a.1 ≠ k)
    (m : List (String × α)) :
    mapGet (a :: m) k = mapGet m k := by
  simp [mapGet, List.find?_cons, h]

theorem mapGet_map_setval_ne (m : List (String × α)) {k k' : String} (v : α)
    (h : k' ≠ k) :
    mapGet (m.map (fun p => if p.1 == k then (k, v) else p)) k' = mapGet m k' := by
  induction m with
  | nil => rfl
  | cons b m ihm =>
    by_cases hb : b.1 = k
    · rw [List.map_cons, if_pos (by simpa using hb)]
      rw [mapGet_cons_ne (a := (k, v)) (by simpa using Ne.symm h)]
      rw [mapGet_cons_ne (by rw [hb]; exact Ne.symm h)]
      exact ihm
    · rw [List.map_cons, if_neg (by simpa using hb)]
      by_cases hbk : b.1 = k'
      · simp [mapGet, List.find?_cons, hbk]
      · rw [mapGet_cons_ne hbk, mapGet_cons_ne hbk]
        exact ihm

theorem mapGet_append_single_ne (m : List (String × α)) {k k' : String} (v : α)
    (h : k' ≠ k) :
    mapGet (m ++ [(k, v)]) k' = mapGet m k' := by
  induction m with
  | nil =>
    have hb : (k == k') = false := by simpa using Ne.symm h
    simp [mapGet, List.find?, hb]
  | cons a m ih =>
    by_cases ha : a.1 = k'
    · simp [mapGet, List.find?_cons, ha]
    · rw [List.cons_append, mapGet_cons_ne ha, mapGet_cons_ne ha]
      exact ih

theorem mapGet_mapSet_ne (m : List (String × α)) {k k' : String} (v : α)
    (h : k' ≠ k) :
    mapGet (mapSet m k v) k' = mapGet m k' := by
  by_cases hm : m.any (fun p => p.1 == k)
  · rw [mapSet, if_pos hm]
    exact mapGet_map_setval_ne m v h
  · rw [mapSet, if_neg hm]
    exact mapGet_append_single_ne m v h

theorem mapHas_eq_isSome_mapGet (m : List (String × α)) (k : String) :
    mapHas m k = (mapGet m k).isSome := by
  induction m with
  | nil => rfl
  | cons a m ih =>
    by_cases h : a.1 = k
    · simp [mapHas, mapGet, List.find?_cons, h]
    · rw [mapGet_cons_ne h]
      have hb : (a.1 == k) = false := by simpa using h
      simp only [mapHas, List.any_cons, hb, Bool.false_or]
      exact ih

theorem mapGet_mapDelete_ne (m : List (String × α)) {k k' : String}
    (h : k' ≠ k) :
    mapGet (mapDelete m k) k' = mapGet m k' := by
  induction m with
  | cons a m ih =>
    by_cases ha : a.1 = k
    · rw [show mapDelete (a :: m) k = mapDelete m k by
        simp [mapDelete, List.filter_cons, ha]]
      rw [mapGet_cons_ne (by rw [ha]; exact Ne.symm h)]
      exact ih
    · rw [show mapDelete (a :: m) k = a :: mapDelete m k by
        simp [mapDelete, List.filter_cons, ha]]
      by_cases hak : a.1 = k'
      · simp [mapGet, List.find?_cons, hak]
      · rw [mapGet_cons_ne hak, mapGet_cons_ne hak]
        exact ih
  | nil => rfl

theorem mapHas_mapDelete_self (m : List (String × α)) (k : String) :
    mapHas (mapDelete m k) k = false := by
  induction m with
  | nil => rfl
  | cons a m ih =>
    by_cases ha : a.1 = k
    · rw [show mapDelete (a :: m) k = mapDelete m k by
        simp [mapDelete, List.filter_cons, ha]]
      exact ih
    · rw [show mapDelete (a :: m) k = a :: mapDelete m k by
        simp [mapDelete, List.filter_cons, ha]]
      have hb : (a.1 == k) = false := by simpa using ha
      simp only [mapHas, List.any_cons, hb, Bool.false_or]
      exact ih

theorem mapHas_mapSet (m : List (String × α)) (k k' : String) (v : α) :
    mapHas (mapSet m k v) k' = ((k' == k) || mapHas m k') := by
  by_cases h : k' = k
  · subst h
    rw [mapHas_eq_isSome_mapGet, mapGet_mapSet_self]
    simp
  · rw [mapHas_eq_isSome_mapGet, mapGet_mapSet_ne m v h,
      ← mapHas_eq_isSome_mapGet]
    simp [h]

theorem mapHas_mapDelete_ne (m : List (String × α)) {k k' : String}
    (h : k' ≠ k) :
    mapHas (mapDelete m k) k' = mapHas m k' := by
  rw [mapHas_eq_isSome_mapGet, mapGet_mapDelete_ne m h,
    ← mapHas_eq_isSome_mapGet]

theorem mapHas_iff_exists (m : List (String × α)) (k : String) :
    mapHas m k = true ↔ ∃ v, mapGet m k = some v := by
  rw [mapHas_eq_isSome_mapGet]
  cases mapGet m k <;> simp

theorem mapGet_pushUserOp_self (m : List (String × List Nat)) (u : String)
    (opId : Nat) :
    mapGet (pushUserOp m u opId) u
      = some (((mapGet m u).getD []) ++ [opId]) := by
  cases h : mapGet m u <;> simp [pushUserOp, h, mapGet_mapSet_self]

/-! Lemmas about the backward scan. -/

theorem flagLast_snoc (xs : List Operation) (x : Operation)
    (p : Operation → Bool) (f : Operation → Operation) :
    flagLast (xs ++ [x]) p f
      = if p x then some (f x, xs ++ [f x])
        else (flagLast xs p f).map (fun r => (r.1, r.2 ++ [x])) := by
  induction xs with
  | nil =>
    by_cases h : p x <;> simp [flagLast, h]
  | cons a xs ih =>
    have hstep : flagLast ((a :: xs) ++ [x]) p f
        = match flagLast (xs ++ [x]) p f with
          | some (op, xs') => some (op, a :: xs')
          | none => if p a then some (f a, f a :: (xs ++ [x])) else none := by
      rw [List.cons_append]
      rfl
    rw [hstep, ih]
    by_cases h : p x
    · simp [h]
    · cases hf : flagLast xs p f with
      | some r => simp [flagLast, hf, h]
      | none => by_cases ha : p a <;> simp [flagLast, hf, h, ha]

/-! Lemmas about addOperation under the live-index invariant. -/

theorem DrawingState.addOperation_fst (s : DrawingState) (inp : OperationInput)
    (now : Nat) (h : s.wfIdx) :
    (s.addOperation inp now).1 =
      { operationHistory := s.operationHistory ++ [mkOp s inp now]
        currentHistoryIndex := s.currentHistoryIndex + 1
        strokes := applyOp s.strokes (mkOp s inp now)
        userOperations :=
          match inp.userId with
          | some u =>
            if u = "" then s.userOperations
            else pushUserOp s.userOperations u (mkOp s inp now).id
          | none => s.userOperations
        operationIdCounter := s.operationIdCounter + 1 } := by
  rw [DrawingState.wfIdx] at h
  simp only [DrawingState.addOperation, h, lt_self_iff_false, if_false, mkOp]

theorem DrawingState.wfIdx_addOperation (s : DrawingState)
    (inp : OperationInput) (now : Nat) (h : s.wfIdx) :
    ((s.addOperation inp now).1).wfIdx := by
  rw [s.addOperation_fst inp now h]
  rw [DrawingState.wfIdx] at h ⊢
  simp [h]

/-! Preservation of the single-user invariant. -/

theorem invU_fresh (u : String) : InvU u freshDrawingState := by
  refine ⟨by rw [DrawingState.wfIdx]; rfl, ?_, ?_, rfl⟩ <;>
    intro op hop <;> simp [freshDrawingState] at hop

theorem invU_addOperation {u : String} (hu : u ≠ "") {s : DrawingState}
    (inp : OperationInput) (now : Nat) (hin : inp.userId = some u)
    (h : InvU u s) : InvU u ((s.addOperation inp now).1) := by
  obtain ⟨hwf, hflags, hidxmem, hstrokes⟩ := h
  rw [s.addOperation_fst inp now hwf]
  refine ⟨?_, ?_, ?_, ?_⟩
  · rw [DrawingState.wfIdx] at hwf ⊢
    simp only [List.length_append, List.length_singleton]
    rw [hwf]
    push_cast
    ring
  · intro op hop
    rcases List.mem_append.mp hop with h1 | h2
    · exact hflags op h1
    · rw [List.mem_singleton.mp h2]
      exact ⟨by simp [mkOp, hin], rfl, rfl, rfl⟩
  · intro op hop
    simp only [hin, if_neg hu, mapGet_pushUserOp_self, Option.getD_some]
    rcases List.mem_append.mp hop with h1 | h2
    · exact List.mem_append_left _ (hidxmem op h1)
    · rw [List.mem_singleton.mp h2]
      exact List.mem_append_right _ (by simp [mkOp])
  · simp only [List.filter_append, List.foldl_append]
    have hnew : (mkOp s inp now).undone = false := rfl
    rw [show List.filter (fun op => !op.undone) [mkOp s inp now]
        = [mkOp s inp now] by simp [hnew]]
    rw [← hstrokes]
    rfl

theorem invU_addOps {u : String} (hu : u ≠ "") (ps : List (OperationInput × Nat))
    (hall : ∀ p ∈ ps, p.1.userId = some u) (s : DrawingState) (h : InvU u s) :
    InvU u (addOps s ps)
      ∧ (addOps s ps).operationHistory.length
          = s.operationHistory.length + ps.length := by
  induction ps generalizing s with
  | nil => simpa [addOps] using h
  | cons p ps ih =>
    have hp : p.1.userId = some u := hall p (by simp)
    have hstep : InvU u ((s.addOperation p.1 p.2).1) :=
      invU_addOperation hu p.1 p.2 hp h
    have hlen : ((s.addOperation p.1 p.2).1).operationHistory.length
        = s.operationHistory.length + 1 := by
      rw [s.addOperation_fst p.1 p.2 h.1]
      simp
    have hfold : addOps s (p :: ps) = addOps ((s.addOperation p.1 p.2).1) ps := rfl
    rw [hfold]
    obtain ⟨h1, h2⟩ := ih (fun q hq => hall q (List.mem_cons_of_mem p hq)) _ hstep
    refine ⟨h1, ?_⟩
    rw [h2, hlen, List.length_cons]
    omega

/-- Setting the three undo markers and then clearing them restores an
operation that carried none. -/
theorem unflagFlag (op : Operation) (u' : String) (t : Nat)
    (h1 : op.undone = false) (h2 : op.undoneBy = none) (h3 : op.undoneAt = none) :
    { ({ op with undone := true, undoneBy := some u', undoneAt := some t }) with
        undone := false, undoneBy := none, undoneAt := none } = op := by
  cases op
  simp_all

/-! The claims. -/

/-- C1. The claim states that undo(userId) returns none exactly when the
user has no operations in the log or all of them are already flagged
undone, in particular also after a previous undo or redo has triggered a
rebuild.  The code violates this: rebuildState clears the per-user
operation index and never repopulates it, and undo bails out on an empty
index entry.  Concretely, after two draw operations by user u and one
successful undo, a second undo returns none although the history still
holds one non-undone operation of u. -/
theorem undo_after_rebuild_returns_none :
    (((addOps freshDrawingState
          [(drawInput "u" "s1" ⟨0, 0⟩, 0), (drawInput "u" "s1" ⟨1, 1⟩, 0)]).undo
        "u" 1).1.undo "u" 2).2 = none
    ∧ (((addOps freshDrawingState
          [(drawInput "u" "s1" ⟨0, 0⟩, 0), (drawInput "u" "s1" ⟨1, 1⟩, 0)]).undo
        "u" 1).1.operationHistory.filter
          (fun op => op.userId == some "u" && !op.undone)).length = 1 :=
  ⟨rfl, rfl⟩

/-- C2. The claim states that processing a client clear message appends one
clear operation to the room's log, empties the derived strokes, and leaves
every previously logged operation in the history.  The code violates this:
the clear handler of server.js first calls addOperation with the clear
payload and then DrawingState.clear, which resets the whole operation
history, so afterwards the log is empty; even the clear operation itself
is discarded.  Concretely, from a log holding one draw operation the
handler leaves a log of length zero. -/
theorem clear_discards_operation_log :
    (serverClear (addOps freshDrawingState [(drawInput "u" "s1" ⟨0, 0⟩, 0)])
        "u" 1).operationHistory = []
    ∧ (addOps freshDrawingState
        [(drawInput "u" "s1" ⟨0, 0⟩, 0)]).operationHistory.length = 1 :=
  ⟨rfl, rfl⟩

/-- C3. For a log built from scratch by operations all belonging to one
user with a nonempty id, with no operation flagged undone (as addOperation
creates them), an undo followed by a redo by that user restores the
derived stroke state exactly. -/
theorem undo_redo_restores_strokes (u : String) (hu : u ≠ "")
    (ps : List (OperationInput × Nat)) (hne : ps ≠ [])
    (hall : ∀ p ∈ ps, p.1.userId = some u) (t1 : Nat) :
    ((((addOps freshDrawingState ps).undo u t1).1).redo u).1.strokes
      = (addOps freshDrawingState ps).strokes := by
  obtain ⟨hInv, hlen⟩ := invU_addOps hu ps hall freshDrawingState (invU_fresh u)
  set s := addOps freshDrawingState ps with hs
  obtain ⟨hwf, hflags, hidxmem, hstrokes⟩ := hInv
  have hHne : s.operationHistory ≠ [] := by
    intro h0
    have hps : ps.length = 0 := by
      rw [h0] at hlen
      simpa [freshDrawingState] using hlen.symm
    exact hne (List.length_eq_zero.mp hps)
  obtain ⟨H', la, hsplit⟩ : ∃ H' la, s.operationHistory = H' ++ [la] := by
    rcases List.eq_nil_or_concat s.operationHistory with h0 | ⟨L, b, hc⟩
    · exact absurd h0 hHne
    · exact ⟨L, b, by rw [hc, List.concat_eq_append]⟩
  have hla_mem : la ∈ s.operationHistory := by rw [hsplit]; simp
  obtain ⟨hlau, hlaundone, hlaby, hlaat⟩ := hflags la hla_mem
  have hmemid : la.id ∈ (mapGet s.userOperations u).getD [] := hidxmem la hla_mem
  have huserne : ((mapGet s.userOperations u).getD []).isEmpty = false := by
    cases hl : (mapGet s.userOperations u).getD [] with
    | nil => rw [hl] at hmemid; simp at hmemid
    | cons a l => simp
  have hundo : s.undo u t1
      = (DrawingState.rebuildState { s with operationHistory :=
            H' ++ [{ la with undone := true, undoneBy := some u, undoneAt := some t1 }] },
         some { la with undone := true, undoneBy := some u, undoneAt := some t1 }) := by
    simp only [DrawingState.undo, huserne, Bool.false_eq_true, if_false]
    rw [hsplit, flagLast_snoc, if_pos (by simp [List.elem_iff, hmemid, hlaundone])]
  rw [hundo]
  have hredo : (DrawingState.rebuildState { s with operationHistory :=
        H' ++ [{ la with undone := true, undoneBy := some u, undoneAt := some t1 }] }).redo u
      = (DrawingState.rebuildState { (DrawingState.rebuildState { s with operationHistory :=
            H' ++ [{ la with undone := true, undoneBy := some u, undoneAt := some t1 }] }) with
          operationHistory := H' ++ [la] }, some la) := by
    simp only [DrawingState.redo]
    have hh : (DrawingState.rebuildState { s with operationHistory :=
        H' ++ [{ la with undone := true, undoneBy := some u, undoneAt := some t1 }] }).operationHistory
        = H' ++ [{ la with undone := true, undoneBy := some u, undoneAt := some t1 }] := rfl
    rw [hh, flagLast_snoc, if_pos (by simp [hlau])]
    rw [unflagFlag la u t1 hlaundone hlaby hlaat]
  rw [hredo]
  have hfinal : (DrawingState.rebuildState { (DrawingState.rebuildState { s with operationHistory :=
        H' ++ [{ la with undone := true, undoneBy := some u, undoneAt := some t1 }] }) with
      operationHistory := H' ++ [la] }).strokes
      = ((H' ++ [la]).filter (fun op => !op.undone)).foldl applyOp [] := rfl
  rw [hfinal, ← hsplit, ← hstrokes]

/-- Witness for C3 at a concrete input. -/
theorem undo_redo_restores_strokes_witness :
    ("A" ≠ ""
      ∧ ([(drawInput "A" "s1" ⟨0, 0⟩, 0)] : List (OperationInput × Nat)) ≠ []
      ∧ (∀ p ∈ [(drawInput "A" "s1" ⟨0, 0⟩, 0)], p.1.userId = some "A"))
    ∧ ((((addOps freshDrawingState [(drawInput "A" "s1" ⟨0, 0⟩, 0)]).undo
          "A" 0).1).redo "A").1.strokes
        = (addOps freshDrawingState [(drawInput "A" "s1" ⟨0, 0⟩, 0)]).strokes :=
  ⟨⟨by decide, by simp, by simp [drawInput]⟩,
    undo_redo_restores_strokes "A" (by decide) _ (by simp) (by simp [drawInput]) 0⟩

/-- C6. Rebuilding the derived state is idempotent: rebuildState leaves the
operation history untouched and recomputes the strokes from it alone, so a
second consecutive rebuildState yields the identical derived stroke set. -/
theorem rebuildState_idempotent (s : DrawingState) :
    s.rebuildState.rebuildState.strokes = s.rebuildState.strokes := rfl

/-- C4. Undo operates at point granularity: after three draw operations by
user u sharing one strokeId (none undone), a single undo removes exactly
the last appended point, and the stroke remains in the derived state with
its first two points. -/
theorem undo_removes_last_point_only (u sid tool color : String) (hu : u ≠ "")
    (lw : ℝ) (p1 p2 p3 : Point) (t1 t2 t3 t : Nat) :
    (((addOps freshDrawingState
        [(drawInputFull u sid tool color lw p1, t1),
         (drawInputFull u sid tool color lw p2, t2),
         (drawInputFull u sid tool color lw p3, t3)]).undo u t).1).strokes
      = [{ id := some sid, userId := some u, tool := tool, color := color,
           lineWidth := lw, points := [p1, p2] }] := by
  have e1 : (freshDrawingState.addOperation (drawInputFull u sid tool color lw p1) t1).1
      = ⟨[⟨1, "draw", some u, some sid, tool, color, lw, some p1, 0, t1, false, none, none⟩],
         0, [⟨some sid, some u, tool, color, lw, [p1]⟩], [(u, [1])], 1⟩ := by
    rw [DrawingState.addOperation_fst _ _ _ (by rw [DrawingState.wfIdx]; rfl)]
    simp [mkOp, freshDrawingState, applyOp, pushUserOp, mapGet, mapSet, drawInputFull, if_neg hu]
  have e2 : ((⟨[⟨1, "draw", some u, some sid, tool, color, lw, some p1, 0, t1, false, none, none⟩],
         0, [⟨some sid, some u, tool, color, lw, [p1]⟩], [(u, [1])], 1⟩ : DrawingState).addOperation
            (drawInputFull u sid tool color lw p2) t2).1
      = ⟨[⟨1, "draw", some u, some sid, tool, color, lw, some p1, 0, t1, false, none, none⟩,
          ⟨2, "draw", some u, some sid, tool, color, lw, some p2, 0, t2, false, none, none⟩],
         1, [⟨some sid, some u, tool, color, lw, [p1, p2]⟩], [(u, [1, 2])], 2⟩ := by
    rw [DrawingState.addOperation_fst _ _ _ (by rw [DrawingState.wfIdx]; rfl)]
    simp [mkOp, applyOp, pushUserOp, mapGet, mapSet, drawInputFull, if_neg hu, updateFirst]
  have e3 : ((⟨[⟨1, "draw", some u, some sid, tool, color, lw, some p1, 0, t1, false, none, none⟩,
          ⟨2, "draw", some u, some sid, tool, color, lw, some p2, 0, t2, false, none, none⟩],
         1, [⟨some sid, some u, tool, color, lw, [p1, p2]⟩], [(u, [1, 2])], 2⟩ : DrawingState).addOperation
            (drawInputFull u sid tool color lw p3) t3).1
      = ⟨[⟨1, "draw", some u, some sid, tool, color, lw, some p1, 0, t1, false, none, none⟩,
          ⟨2, "draw", some u, some sid, tool, color, lw, some p2, 0, t2, false, none, none⟩,
          ⟨3, "draw", some u, some sid, tool, color, lw, some p3, 0, t3, false, none, none⟩],
         2, [⟨some sid, some u, tool, color, lw, [p1, p2, p3]⟩], [(u, [1, 2, 3])], 3⟩ := by
    rw [DrawingState.addOperation_fst _ _ _ (by rw [DrawingState.wfIdx]; rfl)]
    simp [mkOp, applyOp, pushUserOp, mapGet, mapSet, drawInputFull, if_neg hu, updateFirst]
  have hadd : addOps freshDrawingState
        [(drawInputFull u sid tool color lw p1, t1),
         (drawInputFull u sid tool color lw p2, t2),
         (drawInputFull u sid tool color lw p3, t3)]
      = ⟨[⟨1, "draw", some u, some sid, tool, color, lw, some p1, 0, t1, false, none, none⟩,
          ⟨2, "draw", some u, some sid, tool, color, lw, some p2, 0, t2, false, none, none⟩,
          ⟨3, "draw", some u, some sid, tool, color, lw, some p3, 0, t3, false, none, none⟩],
         2, [⟨some sid, some u, tool, color, lw, [p1, p2, p3]⟩], [(u, [1, 2, 3])], 3⟩ := by
    show ((((freshDrawingState.addOperation (drawInputFull u sid tool color lw p1) t1).1.addOperation
        (drawInputFull u sid tool color lw p2) t2).1.addOperation
        (drawInputFull u sid tool color lw p3) t3).1) = _
    rw [e1, e2, e3]
  rw [hadd]
  simp only [DrawingState.undo]
  rw [show mapGet [(u, [1, 2, 3])] u = some [1, 2, 3] by simp [mapGet]]
  simp only [Option.getD_some, List.isEmpty_cons, Bool.false_eq_true, if_false]
  rw [show ([⟨1, "draw", some u, some sid, tool, color, lw, some p1, 0, t1, false, none, none⟩,
        ⟨2, "draw", some u, some sid, tool, color, lw, some p2, 0, t2, false, none, none⟩,
        ⟨3, "draw", some u, some sid, tool, color, lw, some p3, 0, t3, false, none, none⟩] : List Operation)
      = [⟨1, "draw", some u, some sid, tool, color, lw, some p1, 0, t1, false, none, none⟩,
        ⟨2, "draw", some u, some sid, tool, color, lw, some p2, 0, t2, false, none, none⟩]
        ++ [⟨3, "draw", some u, some sid, tool, color, lw, some p3, 0, t3, false, none, none⟩] from rfl]
  rw [flagLast_snoc, if_pos (by simp)]
  simp only [DrawingState.rebuildState]
  simp [applyOp, updateFirst, List.filter]

/-- Witness for C4 at a concrete input. -/
theorem undo_removes_last_point_only_witness :
    "A" ≠ ""
    ∧ (((addOps freshDrawingState
          [(drawInputFull "A" "s1" "brush" "#000000" 5 ⟨0, 0⟩, 0),
           (drawInputFull "A" "s1" "brush" "#000000" 5 ⟨1, 1⟩, 1),
           (drawInputFull "A" "s1" "brush" "#000000" 5 ⟨2, 2⟩, 2)]).undo "A" 3).1).strokes
        = [{ id := some "s1", userId := some "A", tool := "brush", color := "#000000",
             lineWidth := 5, points := [⟨0, 0⟩, ⟨1, 1⟩] }] :=
  ⟨by decide,
    undo_removes_last_point_only "A" "s1" "brush" "#000000" (by decide) 5
      ⟨0, 0⟩ ⟨1, 1⟩ ⟨2, 2⟩ 0 1 2 3⟩


theorem applyOp_erase (strokes : List Stroke) (op : Operation) (c : Point) (r : ℝ)
    (hty : op.type = "erase") (hc : op.point = some c) (hr : eraseEffRadius op = r) :
    applyOp strokes op
      = strokes.filterMap (fun st =>
          if st.tool = "eraser" then some st
          else
            let fp := st.points.filter (pointSurvives (some c) r)
            if fp.isEmpty then none else some { st with points := fp }) := by
  simp only [applyOp, hty, hc, hr]
  rfl

/-- C5. Folding an erase operation with a nonzero radius: the operation is
appended to the log (it is never discarded), and the derived strokes are
transformed exactly as the claim describes, expressed by the spec-worded
eraseSpecStroke: eraser-tool strokes untouched, every other stroke loses
exactly the points at distance at most the radius from the erase point,
and a stroke whose points all fall within the radius is removed. -/
theorem erase_fold_semantics (s : DrawingState) (hwf : s.wfIdx) (u : Option String)
    (c : Point) (r : ℝ) (hr : r ≠ 0) (now : Nat) :
    (s.addOperation (eraseInput u c r) now).1.operationHistory
        = s.operationHistory ++ [mkOp s (eraseInput u c r) now]
    ∧ (s.addOperation (eraseInput u c r) now).1.strokes
        = s.strokes.filterMap (eraseSpecStroke c r) := by
  rw [s.addOperation_fst _ now hwf]
  refine ⟨rfl, ?_⟩
  show applyOp s.strokes (mkOp s (eraseInput u c r) now) = _
  rw [applyOp_erase s.strokes _ c r rfl rfl
    (by simp [eraseEffRadius, mkOp, eraseInput, hr])]
  apply List.filterMap_congr
  intro st hst
  by_cases ht : st.tool = "eraser"
  · simp [ht, eraseSpecStroke]
  · have hfeq : st.points.filter (pointSurvives (some c) r)
        = st.points.filter
            (fun p => !decide (Real.sqrt ((p.x - c.x) ^ 2 + (p.y - c.y) ^ 2) ≤ r)) := by
      apply List.filter_congr
      intro p hp
      simp only [pointSurvives]
      rw [← decide_not]
      exact decide_eq_decide.mpr not_le.symm
    by_cases hall : ∀ p ∈ st.points, Real.sqrt ((p.x - c.x) ^ 2 + (p.y - c.y) ^ 2) ≤ r
    · have hnil : st.points.filter (pointSurvives (some c) r) = [] := by
        rw [hfeq]
        apply List.filter_eq_nil_iff.mpr
        intro p hp
        simp [hall p hp]
      simp [ht, eraseSpecStroke, hnil]
      rw [if_pos hall]
    · have hne : st.points.filter (pointSurvives (some c) r) ≠ [] := by
        rw [hfeq]
        push_neg at hall
        obtain ⟨p, hp, hgt⟩ := hall
        intro h0
        have : p ∈ st.points.filter
            (fun p => !decide (Real.sqrt ((p.x - c.x) ^ 2 + (p.y - c.y) ^ 2) ≤ r)) := by
          rw [List.mem_filter]
          exact ⟨hp, by simp [hgt]⟩
        rw [h0] at this
        simp at this
      have hempty : (st.points.filter (pointSurvives (some c) r)).isEmpty = false := by
        cases h : st.points.filter (pointSurvives (some c) r) with
        | nil => exact absurd h hne
        | cons a l => simp
      simp only [ht, if_neg, eraseSpecStroke, if_false, hempty, hfeq, hall]
      simp [ht, hall, hempty, hfeq]

/-- Witness for C5 at a concrete input. -/
theorem erase_fold_semantics_witness :
    (freshDrawingState.wfIdx ∧ (1 : ℝ) ≠ 0)
    ∧ ((freshDrawingState.addOperation (eraseInput (some "A") ⟨0, 0⟩ 1) 0).1.operationHistory
        = freshDrawingState.operationHistory
            ++ [mkOp freshDrawingState (eraseInput (some "A") ⟨0, 0⟩ 1) 0]
      ∧ (freshDrawingState.addOperation (eraseInput (some "A") ⟨0, 0⟩ 1) 0).1.strokes
        = freshDrawingState.strokes.filterMap (eraseSpecStroke ⟨0, 0⟩ 1)) :=
  ⟨⟨by rw [DrawingState.wfIdx]; decide, one_ne_zero⟩,
    erase_fold_semantics freshDrawingState (by rw [DrawingState.wfIdx]; decide)
      (some "A") ⟨0, 0⟩ 1 one_ne_zero 0⟩


theorem RoomManager.leaveRoom_rooms (rm : RoomManager) (s : String) :
    (rm.leaveRoom s).rooms = rm.rooms := by
  simp only [RoomManager.leaveRoom]
  cases mapGet rm.socketToRoom s <;> rfl

theorem RoomManager.leaveRoom_default (rm : RoomManager) (s : String) :
    (rm.leaveRoom s).defaultRoomId = rm.defaultRoomId := by
  simp only [RoomManager.leaveRoom]
  cases mapGet rm.socketToRoom s <;> rfl

theorem RoomManager.joinRoom_rooms (rm : RoomManager) (s r : String) :
    (rm.joinRoom s r).rooms
      = (if mapHas (rm.leaveRoom s).rooms r then (rm.leaveRoom s).rooms
         else mapSet (rm.leaveRoom s).rooms r freshDrawingState) := by
  simp only [RoomManager.joinRoom]
  by_cases hc : mapHas (rm.leaveRoom s).rooms r
  · simp [hc]
  · simp [hc, RoomManager.createRoom]

theorem RoomManager.joinRoom_default (rm : RoomManager) (s r : String) :
    (rm.joinRoom s r).defaultRoomId = rm.defaultRoomId := by
  simp only [RoomManager.joinRoom]
  by_cases hc : mapHas (rm.leaveRoom s).rooms r
  · simp [hc, RoomManager.leaveRoom_default]
  · simp [hc, RoomManager.createRoom, RoomManager.leaveRoom_default]

theorem step_preserves_default (rm : RoomManager) (op : RegistryOp)
    (h : mapHas rm.rooms rm.defaultRoomId = true) :
    mapHas (rm.step op).rooms (rm.step op).defaultRoomId = true
      ∧ (rm.step op).defaultRoomId = rm.defaultRoomId := by
  cases op with
  | create r =>
    constructor
    · by_cases hc : mapHas rm.rooms r <;>
        simp [RoomManager.step, RoomManager.createRoom, hc, mapHas_mapSet, h]
    · by_cases hc : mapHas rm.rooms r <;>
        simp [RoomManager.step, RoomManager.createRoom, hc]
  | join s r =>
    have hd := RoomManager.joinRoom_default rm s r
    refine ⟨?_, hd⟩
    simp only [RoomManager.step]
    rw [RoomManager.joinRoom_rooms, hd, RoomManager.leaveRoom_rooms]
    by_cases hc : mapHas rm.rooms r
    · simp [hc, h]
    · simp [hc, mapHas_mapSet, h]
  | leave s =>
    simp only [RoomManager.step]
    rw [RoomManager.leaveRoom_rooms, RoomManager.leaveRoom_default]
    exact ⟨h, rfl⟩
  | delete r =>
    by_cases hd : r = rm.defaultRoomId
    · constructor <;> simp [RoomManager.step, RoomManager.deleteRoom, hd, h]
    · have hne : rm.defaultRoomId ≠ r := fun he => hd he.symm
      cases hg : mapGet rm.roomUsers r with
      | none =>
        constructor <;> simp [RoomManager.step, RoomManager.deleteRoom, hd, hg, h]
      | some l =>
        by_cases hl : l.length = 0
        · constructor <;>
            simp [RoomManager.step, RoomManager.deleteRoom, hd, hg, hl,
              mapHas_mapDelete_ne rm.rooms hne, h]
        · constructor <;>
            simp [RoomManager.step, RoomManager.deleteRoom, hd, hg, hl, h]

/-- C8. The default room always exists: after any sequence of createRoom,
joinRoom, leaveRoom and deleteRoom steps from a fresh registry, the room
map still holds the key default (createRoom and joinRoom only add entries,
leaveRoom does not touch the room map, and deleteRoom refuses the default
room). -/
theorem default_room_always_exists (ops : List RegistryOp) :
    mapHas ((ops.foldl RoomManager.step freshRoomManager).rooms) "default" = true := by
  have key : ∀ rm : RoomManager, mapHas rm.rooms rm.defaultRoomId = true →
      rm.defaultRoomId = "default" →
      mapHas ((ops.foldl RoomManager.step rm).rooms) "default" = true := by
    induction ops with
    | nil =>
      intro rm h hdef
      rw [List.foldl_nil, ← hdef]
      exact h
    | cons op ops ih =>
      intro rm h hdef
      rw [List.foldl_cons]
      obtain ⟨h1, h2⟩ := step_preserves_default rm op h
      exact ih (rm.step op) h1 (h2.trans hdef)
  exact key freshRoomManager rfl rfl



/-- C7. For a registry in which the room exists (and, as the constructor
and every operation maintain, each existing room has a membership set),
deleteRoom fails and leaves the registry unchanged exactly when the room
is the default room or its membership set is nonempty; otherwise it
returns success and removes both the room (with its log) and its
membership set. -/
theorem deleteRoom_spec (rm : RoomManager) (roomId : String)
    (hx : mapHas rm.rooms roomId = true)
    (hw : ∀ p ∈ rm.rooms, mapHas rm.roomUsers p.1 = true) :
    (((rm.deleteRoom roomId).2 = false ∧ (rm.deleteRoom roomId).1 = rm)
        ↔ (roomId = rm.defaultRoomId ∨ (mapGet rm.roomUsers roomId).getD [] ≠ []))
    ∧ ((roomId ≠ rm.defaultRoomId ∧ (mapGet rm.roomUsers roomId).getD [] = []) →
        ((rm.deleteRoom roomId).2 = true
          ∧ mapHas (rm.deleteRoom roomId).1.rooms roomId = false
          ∧ mapHas (rm.deleteRoom roomId).1.roomUsers roomId = false)) := by
  obtain ⟨q, hqmem, hq⟩ : ∃ q ∈ rm.rooms, q.1 = roomId := by
    simpa [mapHas, List.any_eq_true, beq_iff_eq] using hx
  obtain ⟨l, hl⟩ : ∃ l, mapGet rm.roomUsers roomId = some l := by
    have hh := hw q hqmem
    rw [hq] at hh
    exact (mapHas_iff_exists _ _).mp hh
  by_cases hd : roomId = rm.defaultRoomId
  · constructor
    · simp [RoomManager.deleteRoom, hd]
    · intro hcon
      exact absurd hd hcon.1
  · rcases eq_or_ne l [] with hle | hlne
    · subst hle
      constructor
      · simp [RoomManager.deleteRoom, hd, hl]
      · intro _
        simp [RoomManager.deleteRoom, hd, hl, mapHas_mapDelete_self]
    · have hlen : l.length ≠ 0 := fun h0 => hlne (List.length_eq_zero.mp h0)
      constructor
      · simp [RoomManager.deleteRoom, hd, hl, hlen, hlne]
      · intro hcon
        rw [hl] at hcon
        simp at hcon
        exact absurd hcon.2 hlne

/-- Logging an operation to one room leaves every other room state (log
and derived strokes) untouched. -/
theorem logOperation_other_room (rm : RoomManager) {x y : String}
    (inp : OperationInput) (now : Nat) (h : x ≠ y) :
    (logOperation rm x inp now).getRoomState y = rm.getRoomState y := by
  simp only [logOperation, RoomManager.getRoomState]
  cases hg : mapGet rm.rooms x with
  | none => rfl
  | some ds => simp [mapGet_mapSet_ne _ _ (fun he => h he.symm)]

/-- C9. Room isolation: after any sequence of operations logged against
rooms different from y, the state getRoomState of room y, hence its
operation log and derived strokes, is exactly what it was before. -/
theorem room_isolation (rm : RoomManager) (y : String)
    (ops : List (String × OperationInput × Nat))
    (h : ∀ p ∈ ops, p.1 ≠ y) :
    (ops.foldl (fun acc p => logOperation acc p.1 p.2.1 p.2.2) rm).getRoomState y
      = rm.getRoomState y := by
  induction ops generalizing rm with
  | nil => rfl
  | cons p ops ih =>
    rw [List.foldl_cons]
    rw [ih _ (fun q hq => h q (List.mem_cons_of_mem p hq))]
    exact logOperation_other_room rm p.2.1 p.2.2 (h p (by simp))

/-- C10. The numeric defaults are applied by falsy coercion: an inbound
erase whose radius is explicitly 0 yields the same logged operation as an
absent radius, carrying radius 20, and is folded with effective radius 20;
an inbound draw-start or draw-move whose lineWidth is explicitly 0 yields
the same operation as an absent lineWidth, and the created stroke carries
lineWidth 5. -/
theorem falsy_numeric_defaults (user : UserInfo) (sid : String)
    (tool color : Option String) (pt : Option Point) (c : Point)
    (s : DrawingState) (now : Nat) :
    serverEraseInput user ⟨some c, some 0⟩ = serverEraseInput user ⟨some c, none⟩
    ∧ (serverEraseInput user ⟨some c, some 0⟩).radius = 20
    ∧ s.addOperation (serverEraseInput user ⟨some c, some 0⟩) now
        = s.addOperation (serverEraseInput user ⟨some c, none⟩) now
    ∧ eraseEffRadius (mkOp s (serverEraseInput user ⟨some c, some 0⟩) now) = 20
    ∧ serverDrawStartInput user sid ⟨none, tool, color, some 0, pt⟩
        = serverDrawStartInput user sid ⟨none, tool, color, none, pt⟩
    ∧ (serverDrawStartInput user sid ⟨none, tool, color, some 0, pt⟩).lineWidth = 5
    ∧ serverDrawMoveInput user ⟨some sid, tool, color, some 0, pt⟩
        = serverDrawMoveInput user ⟨some sid, tool, color, none, pt⟩
    ∧ (freshDrawingState.addOperation
          (serverDrawStartInput user sid ⟨none, tool, color, some 0, pt⟩) now).1.strokes
        = [{ id := some sid, userId := some user.id, tool := jsOrStr tool "brush",
             color := jsOrStr color user.color, lineWidth := 5,
             points := pt.toList }] := by
  have hnum : jsOrNum (some 0) (5 : ℝ) = jsOrNum none (5 : ℝ) := by
    simp [jsOrNum]
  have hnum20 : jsOrNum (some 0) (20 : ℝ) = 20 := by
    simp [jsOrNum]
  have hnum5 : jsOrNum (some 0) (5 : ℝ) = 5 := by
    simp [jsOrNum]
  refine ⟨?_, ?_, ?_, ?_, ?_, ?_, ?_, ?_⟩
  · simp [serverEraseInput, jsOrNum]
  · simp [serverEraseInput, hnum20]
  · simp [serverEraseInput, jsOrNum]
  · simp [eraseEffRadius, mkOp, serverEraseInput, hnum20]
  · simp [serverDrawStartInput, jsOrNum]
  · simp [serverDrawStartInput, hnum5]
  · simp [serverDrawMoveInput, jsOrNum]
  · rw [DrawingState.addOperation_fst _ _ _ (by rw [DrawingState.wfIdx]; rfl)]
    simp [applyOp, mkOp, serverDrawStartInput, freshDrawingState, hnum5]

/-- Witness for C7 at a concrete input. -/
theorem deleteRoom_spec_witness :
    (mapHas (freshRoomManager.createRoom "a").1.rooms "a" = true
      ∧ (∀ p ∈ (freshRoomManager.createRoom "a").1.rooms,
          mapHas (freshRoomManager.createRoom "a").1.roomUsers p.1 = true))
    ∧ ((((freshRoomManager.createRoom "a").1.deleteRoom "a").2 = false
          ∧ ((freshRoomManager.createRoom "a").1.deleteRoom "a").1
              = (freshRoomManager.createRoom "a").1)
        ↔ ("a" = (freshRoomManager.createRoom "a").1.defaultRoomId
          ∨ (mapGet (freshRoomManager.createRoom "a").1.roomUsers "a").getD [] ≠ []))
      ∧ (("a" ≠ (freshRoomManager.createRoom "a").1.defaultRoomId
          ∧ (mapGet (freshRoomManager.createRoom "a").1.roomUsers "a").getD [] = []) →
        (((freshRoomManager.createRoom "a").1.deleteRoom "a").2 = true
          ∧ mapHas ((freshRoomManager.createRoom "a").1.deleteRoom "a").1.rooms "a" = false
          ∧ mapHas ((freshRoomManager.createRoom "a").1.deleteRoom "a").1.roomUsers "a"
              = false)) :=
  ⟨⟨by decide, by decide⟩, deleteRoom_spec _ "a" (by decide) (by decide)⟩

/-- Witness for C9 at a concrete input. -/
theorem room_isolation_witness :
    (∀ p ∈ [("default", drawInput "A" "s1" (⟨0, 0⟩ : Point), 0)], p.1 ≠ "y")
    ∧ (([("default", drawInput "A" "s1" (⟨0, 0⟩ : Point), 0)].foldl
          (fun acc p => logOperation acc p.1 p.2.1 p.2.2) freshRoomManager).getRoomState "y"
        = freshRoomManager.getRoomState "y") :=
  ⟨by decide, room_isolation freshRoomManager "y" _ (by decide)⟩

end CollabCanvas
